import Mathlib

/-
  Verification development for the email_threads repository.

  The repository reconstructs conversation structure over batches of email
  records.  The definitions below are shallow embeddings of the JavaScript
  source:

  * `EmailThreadProcessor` (CSV/DAT loader, thread grouping, tree building,
    statistics, EML export) — the file defining `parseColumnHistory`,
    `groupByThreads`, `buildThreadTree`, `calculateMaxDepth`, `countBranches`,
    `generateEmlContent`.
  * `AdvancedSolrProcessor` (Solr-backed loader and the three threading
    strategies) — the file defining `normalizeSubject`,
    `getAllThreadableEmails`, `buildMessageIdOnlyThreads`,
    `buildMessageIdWithProximityThreads`, `buildHybridThreads`.

  JavaScript data structures are modelled as follows: a `Map` is an
  association list in insertion order whose `set` overwrites in place;
  `undefined` string fields are `Option.none`; JS truthiness of strings
  (`undefined` and `""` are falsy) is made explicit; a JS `Date` is either a
  valid millisecond timestamp or the Invalid Date value.
-/

namespace EmailThreads

/-! ## JavaScript primitives -/

/-- JS truthiness of a possibly-`undefined` string: `undefined` and `""` are falsy. -/
def optTruthy : Option String → Bool
  | none => false
  | some s => s ≠ ""

/-- JS `a || b` for a possibly-`undefined` string `a` with string fallback `b`
    (e.g. `email.messageId || email.id`). -/
def jsOr (a : Option String) (b : String) : String :=
  match a with
  | some s => if s = "" then b else s
  | none => b

/-- JS `a || b` where both operands may be `undefined`
    (e.g. `headers.subject || doc.email_subject`). -/
def jsOrO (a b : Option String) : Option String :=
  match a with
  | some s => if s = "" then b else some s
  | none => b

/-- A JS `Map`, as an association list in insertion order: `set` on a present
    key overwrites the value in place, otherwise it appends a new entry. -/
def jsMapSet {K V : Type} [DecidableEq K] (m : List (K × V)) (k : K) (v : V) :
    List (K × V) :=
  if m.any (fun p => p.1 == k) then m.map (fun p => if p.1 == k then (k, v) else p)
  else m ++ [(k, v)]

/-- JS `Map.get` (yields `undefined`, i.e. `none`, for an absent key): the
    value of the entry with the key — entry keys are unique by construction of
    `jsMapSet`, so first-match lookup is the map lookup. -/
def jsMapGet {K V : Type} [DecidableEq K] (m : List (K × V)) (k : K) : Option V :=
  match m with
  | [] => none
  | p :: rest => if p.1 == k then some p.2 else jsMapGet rest k

/-- JS `Map.has`. -/
def jsMapHas {K V : Type} [DecidableEq K] (m : List (K × V)) (k : K) : Bool :=
  m.any (fun p => p.1 == k)

/-- Build an index map by folding `map.set(keyOf e, e)` over a list, skipping
    elements whose key is absent — the shape shared by `messageIdToEmail`
    registration (key skipped for falsy `messageId`) and the tree builder's
    `emailMap` (key always present, possibly `undefined`). -/
def buildIdx {K V : Type} [DecidableEq K] (keyOf : V → Option K) (l : List V) :
    List (K × V) :=
  l.foldl (fun m e => match keyOf e with | some k => jsMapSet m k e | none => m) []

/-- The characters JS `\s` and `String.trim` treat as whitespace (ASCII part;
    the Unicode space classes do not occur in any input considered here). -/
def jsIsSpace (c : Char) : Bool :=
  c = ' ' || c = '\t' || c = '\n' || c = '\r' || c = '\x0b' || c = '\x0c'

/-- JS `String.trim` on a character list. -/
def jsTrimL (l : List Char) : List Char :=
  ((l.dropWhile jsIsSpace).reverse.dropWhile jsIsSpace).reverse

/-- Split a character list at every occurrence of a separator character —
    JS `String.split` with a one-character separator (`"".split(x)` is `[""]`,
    and separators at the ends produce empty fields, as in JS). -/
def splitChar (sep : Char) : List Char → List (List Char)
  | [] => [[]]
  | c :: rest =>
    match splitChar sep rest with
    | [] => [[]]
    | h :: t => if c = sep then [] :: h :: t else (c :: h) :: t

/-- JS `s.split(sep)` for a one-character separator (the only form the source
    uses), kept kernel-computable. -/
def jsSplit (sep : Char) (s : String) : List String :=
  (splitChar sep s.data).map String.mk

/-- Kernel-computable `String.startsWith` (case-sensitive head match). -/
def strStarts (pat s : String) : Bool :=
  go pat.data s.data
where
  go : List Char → List Char → Bool
    | [], _ => true
    | _, [] => false
    | p :: ps, c :: cs => p = c && go ps cs

/-- Kernel-computable `String.drop`. -/
def strDrop (s : String) (n : Nat) : String := String.mk (s.data.drop n)

/-- A JS `Date`: either a valid millisecond timestamp or the Invalid Date value
    (`new Date("garbage")` yields Invalid Date rather than throwing). -/
inductive JsDate where
  | valid (ms : Int) : JsDate
  | invalid : JsDate
deriving DecidableEq

/-- Numeric sort key of a `JsDate`.  An Invalid Date compares as `NaN` in JS,
    for which the sort comparator contract is broken and the resulting order is
    unspecified; we fix the key 0 for it, and no theorem below depends on the
    order of invalid dates. -/
def dateVal : JsDate → Int
  | .valid ms => ms
  | .invalid => 0

/-! ## EmailThreadProcessor (CSV loader, tree builder, statistics) -/

/-- One record of `EmailThreadProcessor`.  Fields parsed out of
    `column_history` may be absent (`undefined` ↦ `none`); `dateSent` is the
    millisecond value of `new Date(row.DateSent)`. -/
structure PEmail where
  id : String
  messageId : Option String := none
  inReplyTo : Option String := none
  references : Option (List String) := none
  threadId : Option String := none
  fromAddr : String := ""
  toAddrs : List String := []
  ccAddrs : List String := []
  subject : String := ""
  dateSent : Int := 0
  isForward : Bool := false
  isExternal : Bool := false
  fullText : String := ""
deriving DecidableEq

/-- The record `parseColumnHistory` accumulates: every field starts out
    `undefined`. -/
structure ThreadInfo where
  messageId : Option String := none
  inReplyTo : Option String := none
  references : Option (List String) := none
  threadId : Option String := none
  isForward : Option Bool := none
  isExternal : Option Bool := none
deriving DecidableEq

/-- One step of `parseColumnHistory`'s `forEach` over the `|`-separated parts.
    `part.replace("MSG-ID:", "")` removes the first occurrence of the marker;
    since the branch is guarded by `startsWith`, that occurrence is the prefix,
    so it equals dropping the marker's length. -/
def parsePart (acc : ThreadInfo) (part : String) : ThreadInfo :=
  if strStarts "MSG-ID:" part then { acc with messageId := some (strDrop part 7) }
  else if strStarts "IN-REPLY-TO:" part then { acc with inReplyTo := some (strDrop part 12) }
  else if strStarts "REFS:" part then
    let refs := strDrop part 5
    let parsed := if refs = "<>" then [] else (jsSplit ' ' refs).filter (fun r => r ≠ "")
    { acc with references := some parsed }
  else if strStarts "THREAD:" part then { acc with threadId := some (strDrop part 7) }
  else if part = "FWD:true" then { acc with isForward := some true }
  else if part = "EXTERNAL:true" then { acc with isExternal := some true }
  else acc

/-- `parseColumnHistory`: a falsy (`undefined` or empty) `column_history`
    yields the empty record; otherwise the `|`-separated parts are folded. -/
def parseColumnHistory (columnHistory : Option String) : ThreadInfo :=
  match columnHistory with
  | none => {}
  | some s => if s = "" then {} else (jsSplit '|' s).foldl parsePart {}

/-- The fields of one CSV/DAT row used by `loadEmailsFromFile`.  Date parsing of
    `row.DateSent` is not modelled (no claim depends on it); `dateSentMs` is
    the resulting timestamp. -/
structure CsvRow where
  begBates : String := ""
  column_history : Option String := none
  fromField : String := ""
  toCol : Option String := none
  ccCol : Option String := none
  subject : String := ""
  dateSentMs : Int := 0
  fullText : String := ""
deriving DecidableEq

/-- JS `s.split(",").map(e => e.trim())` used for the To/CC columns; a falsy
    column yields `[]`. -/
def splitAddrs (s : Option String) : List String :=
  match s with
  | some str => if str = "" then [] else (jsSplit ',' str).map (fun a => String.mk (jsTrimL a.data))
  | none => []

/-- The email object `loadEmailsFromFile` constructs from one row: threading
    fields come from `parseColumnHistory(row.column_history)` and stay
    `undefined` when the corresponding entry is missing.  The truthy-flag
    fields `isForward`/`isExternal` are observed only via JS truthiness, so the
    absent case is `false`. -/
def emailOfRow (row : CsvRow) : PEmail :=
  let ti := parseColumnHistory row.column_history
  { id := row.begBates
    messageId := ti.messageId
    inReplyTo := ti.inReplyTo
    references := ti.references
    threadId := ti.threadId
    fromAddr := row.fromField
    toAddrs := splitAddrs row.toCol
    ccAddrs := splitAddrs row.ccCol
    subject := row.subject
    dateSent := row.dateSentMs
    isForward := ti.isForward.getD false
    isExternal := ti.isExternal.getD false
    fullText := row.fullText }

/-- The ordering `(a, b) => a.dateSent - b.dateSent` used to sort a thread's
    emails. -/
def pDateLe (a b : PEmail) : Prop := a.dateSent ≤ b.dateSent

instance : DecidableRel pDateLe := fun a b => inferInstanceAs (Decidable (a.dateSent ≤ b.dateSent))

/-- `groupByThreads`: records whose `threadId` is falsy are skipped
    (`if (!email.threadId) return;`); the rest are appended to the bucket named
    by their `threadId`, buckets appearing in first-use order; finally every
    bucket is sorted by `dateSent` (JS sort is stable). -/
def groupByThreads (emails : List PEmail) : List (String × List PEmail) :=
  let buckets := emails.foldl (fun m e =>
    match e.threadId with
    | some t => if t = "" then m else jsMapSet m t ((jsMapGet m t).getD [] ++ [e])
    | none => m) []
  buckets.map (fun p => (p.1, p.2.insertionSort pDateLe))

/-- `buildThreadTree`'s `emailMap`: a JS Map keyed by `messageId` — the key may
    be `undefined`, and a later email overwrites an earlier one holding the
    same key. -/
def pEmailMap (emails : List PEmail) : List (Option String × PEmail) :=
  buildIdx (fun e => some e.messageId) emails

/-- `emailMap.get` over a thread's emails. -/
def pLookup (emails : List PEmail) (k : Option String) : Option PEmail :=
  jsMapGet (pEmailMap emails) k

/-- The node object fetched by `emailMap.get(email.messageId)` — for duplicated
    `messageId`s this is the later email's node, not the email's own. -/
def attachEmail (emails : List PEmail) (e : PEmail) : PEmail :=
  (pLookup emails e.messageId).getD e

/-- The guard `email.inReplyTo && emailMap.has(email.inReplyTo)` deciding
    whether an email is attached as a child (else it is pushed to `roots`). -/
def hasParentIn (emails : List PEmail) (e : PEmail) : Bool :=
  match e.inReplyTo with
  | some r => r ≠ "" && jsMapHas (pEmailMap emails) (some r)
  | none => false

/-- `e` ends up in the children array of the map node `p`: its guard passes and
    `emailMap.get(e.inReplyTo)` is `p`. -/
def isChildOf (emails : List PEmail) (p e : PEmail) : Bool :=
  hasParentIn emails e && decide (pLookup emails e.inReplyTo = some p)

/-- The emails pushed (in input order) into the children array of the node for
    `p`; each child is pushed as its map node (`emailMap.get(email.messageId)`). -/
def childEmails (emails : List PEmail) (p : PEmail) : List PEmail :=
  (emails.filter (isChildOf emails p)).map (attachEmail emails)

mutual
/-- A `ThreadNode`: one email plus its ordered children, as built by
    `buildThreadTree`. -/
inductive TN where
  | mk : PEmail → TNs → TN

/-- A children (or roots) array of `ThreadNode`s. -/
inductive TNs where
  | nil : TNs
  | cons : TN → TNs → TNs
end

/-- Convert a Lean list of nodes to a node array. -/
def listToTNs : List TN → TNs
  | [] => .nil
  | n :: t => .cons n (listToTNs t)

/-- Length of a node array. -/
def tnsLength : TNs → Nat
  | .nil => 0
  | .cons _ t => tnsLength t + 1

/-- Reconstruction of the tree `buildThreadTree` wires up by mutation: the node
    of `e` carries the children array `childEmails`.  JS has no fuel; the
    recursion is cut off by `fuel`, and for an acyclic parent relation any
    `fuel ≥ emails.length` reproduces the JS structure exactly (a parent chain
    cannot be longer than the email list).  On a cyclic relation JS builds a
    cyclic object graph whose traversal would not terminate; the truncated tree
    is never used in that situation below. -/
def buildNode (emails : List PEmail) (fuel : Nat) (e : PEmail) : TN :=
  match fuel with
  | 0 => .mk e .nil
  | f + 1 => .mk e (listToTNs ((childEmails emails e).map (buildNode emails f)))

/-- The `roots` array of `buildThreadTree` for one thread's email list: emails
    failing the parent guard are pushed, in input order, as their map nodes. -/
def buildRoots (emails : List PEmail) : TNs :=
  listToTNs ((emails.filter (fun e => !(hasParentIn emails e))).map
    (fun e => buildNode emails emails.length (attachEmail emails e)))

mutual
/-- `calculateMaxDepth(node.children, currentDepth + 1)` for one node. -/
def nodeDepth : TN → Nat → Nat
  | .mk _ cs, d => calculateMaxDepth cs (d + 1)

/-- `calculateMaxDepth(roots, currentDepth)`: `currentDepth` for an empty
    array, else the max over the nodes' child depths (the JS running `maxDepth`
    starts at `currentDepth`, which every recursive value dominates or equals,
    so folding `max` over the nodes with base `currentDepth` is the same). -/
def calculateMaxDepth : TNs → Nat → Nat
  | .nil, d => d
  | .cons n rest, d => max (nodeDepth n d) (calculateMaxDepth rest d)
end

mutual
/-- The contribution of one node to `countBranches`: `children.length` when the
    node has more than one child — the full child count, not `length - 1` —
    plus the count of its subtree. -/
def nodeBranches : TN → Nat
  | .mk _ cs => (if tnsLength cs > 1 then tnsLength cs else 0) + countBranches cs

/-- `countBranches(roots)`. -/
def countBranches : TNs → Nat
  | .nil => 0
  | .cons n rest => nodeBranches n + countBranches rest
end

/-- Child count of a node. -/
def childCount : TN → Nat
  | .mk _ cs => tnsLength cs

mutual
/-- All nodes of a subtree, root first. -/
def nodeList : TN → List TN
  | .mk e cs => .mk e cs :: tnsList cs

/-- All nodes of a forest. -/
def tnsList : TNs → List TN
  | .nil => []
  | .cons n rest => nodeList n ++ tnsList rest
end

/-- Modelled from the spec: the specification's `branchCount`, the sum over all
    nodes of `max(0, childCount - 1)` (natural subtraction is exactly
    `max(0, · - 1)`).  This is the comparison definition for the refinement
    claim about `countBranches`; it is not part of the source. -/
def specBranchCount (ns : TNs) : Nat :=
  ((tnsList ns).map (fun n => childCount n - 1)).sum

/-- Number of nodes with at least two children (the branch points). -/
def branchNodeCount (ns : TNs) : Nat :=
  ((tnsList ns).filter (fun n => childCount n > 1)).length

/-- `new Date(ms).toUTCString()`.  The exact RFC-1123 rendering is irrelevant
    to every claim; the timestamp is shown via its numeric value. -/
def jsToUTCString (ms : Int) : String := toString ms

/-- JS string interpolation of a possibly-`undefined` value
    (`Message-ID: ${email.messageId}` prints the text `undefined`). -/
def optShow (o : Option String) : String := o.getD "undefined"

/-- `generateEmlContent`: building the header array evaluates
    `email.references.length`; when `references` is `undefined` (no `REFS:`
    entry was parsed) this throws a `TypeError` before any output exists, which
    the model reports as `Except.error`.  Otherwise the headers are assembled,
    `null` entries dropped (`filter(Boolean)`), and body appended. -/
def generateEmlContent (email : PEmail) : Except String String :=
  match email.references with
  | none => .error "TypeError: Cannot read properties of undefined (reading length)"
  | some refs =>
      let headers : List (Option String) :=
        [ some ("Message-ID: " ++ optShow email.messageId)
        , some ("From: " ++ email.fromAddr)
        , some ("To: " ++ String.intercalate ", " email.toAddrs)
        , if email.ccAddrs.length > 0 then some ("CC: " ++ String.intercalate ", " email.ccAddrs) else none
        , some ("Subject: " ++ email.subject)
        , some ("Date: " ++ jsToUTCString email.dateSent)
        , if optTruthy email.inReplyTo then some ("In-Reply-To: " ++ email.inReplyTo.getD "") else none
        , if refs.length > 0 then some ("References: " ++ String.intercalate " " refs) else none ]
      .ok (String.intercalate "\r\n" (headers.filterMap id) ++ "\r\n\r\n" ++ email.fullText)

/-! ## AdvancedSolrProcessor (normalisation, loading, threading strategies) -/

/-- Case-insensitive head match: if `l` starts with `pat` (given in lowercase),
    return the remainder. -/
def headIs : List Char → List Char → Option (List Char)
  | [], l => some l
  | _, [] => none
  | p :: ps, c :: cs => if c.toLower = p then headIs ps cs else none

/-- One application of the regex `/^(RE:|FW:|Fwd:|Re:)\s*/gi` as `replace`
    performs it: the pattern is anchored at the start, so despite the `g` flag
    it matches at most once — a single leading marker (alternatives `RE:`,
    `FW:`, `Fwd:` case-insensitively; `Re:` is subsumed by `RE:`) and the
    whitespace run after it are removed. -/
def stripMarkerWs (l : List Char) : List Char :=
  match headIs ['r', 'e', ':'] l with
  | some rest => rest.dropWhile jsIsSpace
  | none =>
    match headIs ['f', 'w', ':'] l with
    | some rest => rest.dropWhile jsIsSpace
    | none =>
      match headIs ['f', 'w', 'd', ':'] l with
      | some rest => rest.dropWhile jsIsSpace
      | none => l

/-- `normalizeSubject`: falsy input yields `""`; otherwise
    `.replace(/^(RE:|FW:|Fwd:|Re:)\s*/gi, "").trim().toLowerCase()`.
    `Char.toLower` matches JS `toLowerCase` on the ASCII subjects considered
    here. -/
def normalizeSubject (subject : Option String) : String :=
  match subject with
  | none => ""
  | some s => if s = "" then "" else String.mk ((jsTrimL (stripMarkerWs s.data)).map Char.toLower)

/-- One record of `AdvancedSolrProcessor` after `getAllThreadableEmails`
    assembles it. -/
structure AEmail where
  id : String
  messageId : Option String := none
  inReplyTo : Option String := none
  references : List String := []
  fromAddr : String := ""
  toAddrs : List String := []
  subject : String := ""
  normalizedSubject : String := ""
  dateSent : JsDate := .valid 0
  body : String := ""
deriving DecidableEq

/-- Registration key of an email in `messageIdToEmail`
    (`if (email.messageId) map.set(email.messageId, email)`). -/
def aKeyOf (e : AEmail) : Option String :=
  match e.messageId with
  | some s => if s = "" then none else some s
  | none => none

/-- `messageIdToEmail` built by `getAllThreadableEmails`, in input order
    (a later email overwrites an earlier one with the same `messageId`). -/
def registerAll (emails : List AEmail) : List (String × AEmail) :=
  buildIdx aKeyOf emails

/-- The lookup function of `messageIdToEmail` (`.get`; `.has` is
    `(idxOf l m).isSome`). -/
def idxOf (emails : List AEmail) : String → Option AEmail :=
  fun m => jsMapGet (registerAll emails) m

/-- The root walk shared by all three strategies:
    `while (current.inReplyTo && map.has(current.inReplyTo)) current = map.get(...)`.
    JS has no fuel; `none` means the fuel ran out with the loop condition still
    true.  Since every step moves to an email stored in the index (an element
    of the batch), a run of `emails.length + 1` steps must revisit an email,
    after which the deterministic loop repeats forever — so with
    `fuel = emails.length + 1`, `none` holds exactly when the JS loop never
    terminates. -/
def findRootAux (idx : String → Option AEmail) : Nat → AEmail → Option AEmail
  | 0, _ => none
  | fuel + 1, cur =>
    match cur.inReplyTo with
    | some r =>
      if r ≠ "" then
        match idx r with
        | some nxt => findRootAux idx fuel nxt
        | none => some cur
      else some cur
    | none => some cur

/-- A thread object of the three strategies (`participants` is a JS `Set`,
    i.e. insertion-ordered and deduplicated; `method` names the strategy). -/
structure SThread where
  id : String
  emails : List AEmail := []
  subject : String
  participants : List String := []
  method : String
deriving DecidableEq

/-- JS `Set.add`. -/
def addToSet (l : List String) (x : String) : List String :=
  if l.contains x then l else l ++ [x]

/-- Push an email into a thread: `thread.emails.push(email)`,
    `thread.participants.add(email.from)`, then each `to` address. -/
def threadAbsorb (th : SThread) (e : AEmail) : SThread :=
  { th with emails := th.emails ++ [e],
            participants := e.toAddrs.foldl addToSet (addToSet th.participants e.fromAddr) }

/-- The final pass over every thread: participants become an array with falsy
    entries removed (`filter(Boolean)`), and emails are sorted by `dateSent`
    (JS sort is stable). -/
def aDateLe (a b : AEmail) : Prop := dateVal a.dateSent ≤ dateVal b.dateSent

instance : DecidableRel aDateLe :=
  fun a b => inferInstanceAs (Decidable (dateVal a.dateSent ≤ dateVal b.dateSent))

instance : IsTotal AEmail aDateLe := ⟨fun _ _ => Int.le_total _ _⟩

instance : IsTrans AEmail aDateLe := ⟨fun _ _ _ h h' => le_trans h h'⟩

/-- Strict version of `aDateLe`, used to identify the sorted order uniquely
    when timestamps are pairwise distinct. -/
def aDateLt (a b : AEmail) : Prop := dateVal a.dateSent < dateVal b.dateSent

instance : IsAntisymm AEmail aDateLt :=
  ⟨fun _ _ h h' => absurd h' (Int.lt_asymm h)⟩

def finalizeThread (th : SThread) : SThread :=
  { th with participants := th.participants.filter (fun s => s ≠ ""),
            emails := th.emails.insertionSort aDateLe }

/-- State threaded through a strategy's `for` loop: the thread map (insertion
    order) and the `processedEmails` set; `none` records that the JS loop
    diverged inside the root walk. -/
def ThreadState := Option (List (String × SThread) × List String)

/-- The root id the walk produces for `e`: `email.messageId || email.id` when
    the guard `email.inReplyTo && map.has(...)` fails, otherwise
    `current.messageId || current.id` for the final `current` — `none` when the
    walk diverges. -/
def walkRootId (idx : String → Option AEmail) (fuel : Nat) (e : AEmail) : Option String :=
  match e.inReplyTo with
  | some r =>
    if r ≠ "" && (idx r).isSome then
      match findRootAux idx fuel e with
      | some root => some (jsOr root.messageId root.id)
      | none => none
    else some (jsOr e.messageId e.id)
  | none => some (jsOr e.messageId e.id)

/-- Create-if-missing followed by `threadAbsorb` and marking processed — the
    common tail of all three strategy loop bodies. -/
def commitEmail (threads : List (String × SThread)) (processed : List String)
    (threadId : String) (e : AEmail) (method : String) :
    List (String × SThread) × List String :=
  let threads :=
    if jsMapHas threads threadId then threads
    else jsMapSet threads threadId
      { id := threadId, emails := [], subject := e.subject, participants := [], method := method }
  let th := (jsMapGet threads threadId).getD
    { id := threadId, emails := [], subject := e.subject, participants := [], method := method }
  (jsMapSet threads threadId (threadAbsorb th e), processed ++ [e.id])

/-- Loop body of `buildMessageIdOnlyThreads`. -/
def stepMsgIdOnly (idx : String → Option AEmail) (fuel : Nat) (st : ThreadState)
    (e : AEmail) : ThreadState :=
  match st with
  | none => none
  | some (threads, processed) =>
    if processed.contains e.id then some (threads, processed)
    else
      match walkRootId idx fuel e with
      | none => none
      | some rootId => some (commitEmail threads processed rootId e "message-id-only")

/-- Approach 1, `buildMessageIdOnlyThreads`: thread key is the root of the
    `inReplyTo` chain.  `none` reports that the walk infinite-loops on this
    input. -/
def buildMessageIdOnlyThreads (idx : String → Option AEmail) (emails : List AEmail) :
    Option (List (String × SThread)) :=
  match emails.foldl (stepMsgIdOnly idx (emails.length + 1)) (some ([], [])) with
  | none => none
  | some (threads, _) => some (threads.map (fun p => (p.1, finalizeThread p.2)))

/-- The proximity test for one candidate thread: the last email of the thread
    is within `proximityHours` of `e` (`Math.abs(a - b)/(1000*60*60) ≤ h`,
    stated integrally; a comparison against an Invalid Date is a `NaN`
    comparison, hence false). -/
def timeOk (a b : JsDate) (proximityHours : Int) : Bool :=
  match a, b with
  | .valid x, .valid y => ((x - y).natAbs : Int) ≤ proximityHours * 3600000
  | _, _ => false

/-- `threadParticipants.includes(email.from) || email.to.some(addr => includes(addr))`. -/
def sharesParticipant (th : SThread) (e : AEmail) : Bool :=
  th.participants.contains e.fromAddr || e.toAddrs.any (fun a => th.participants.contains a)

/-- Whether the proximity loop body matches thread `p` for email `e`.  Every
    stored thread holds at least one email, so the `getLast?` default branch is
    unreachable. -/
def proximityMatch (proximityHours : Int) (e : AEmail) (p : String × SThread) : Bool :=
  match p.2.emails.getLast? with
  | some lastEmail => timeOk e.dateSent lastEmail.dateSent proximityHours && sharesParticipant p.2 e
  | none => false

/-- The `for (const [tid, thread] of threads)` scan with `break`: the first
    thread, in map insertion order, within the time window and sharing a
    participant. -/
def proximityScan (proximityHours : Int) (e : AEmail) :
    List (String × SThread) → Option (String × SThread)
  | [] => none
  | p :: rest =>
    if proximityMatch proximityHours e p then some p else proximityScan proximityHours e rest

/-- Loop body of `buildMessageIdWithProximityThreads`: the message-id walk
    first (`foundThread = threads.get(threadId)` only in that branch), then the
    proximity scan whenever no thread object was found. -/
def stepProximity (idx : String → Option AEmail) (fuel : Nat) (proximityHours : Int)
    (st : ThreadState) (e : AEmail) : ThreadState :=
  match st with
  | none => none
  | some (threads, processed) =>
    if processed.contains e.id then some (threads, processed)
    else
      match walkRootId idx fuel e with
      | none => none
      | some tid0 =>
        let found : Bool :=
          match e.inReplyTo with
          | some r => r ≠ "" && (idx r).isSome && (jsMapGet threads tid0).isSome
          | none => false
        let tid :=
          if found then tid0
          else
            match proximityScan proximityHours e threads with
            | some p => p.1
            | none => tid0
        some (commitEmail threads processed tid e "message-id-proximity")

/-- Approach 2, `buildMessageIdWithProximityThreads`. -/
def buildMessageIdWithProximityThreads (idx : String → Option AEmail)
    (proximityHours : Int) (emails : List AEmail) : Option (List (String × SThread)) :=
  match emails.foldl (stepProximity idx (emails.length + 1) proximityHours) (some ([], [])) with
  | none => none
  | some (threads, _) => some (threads.map (fun p => (p.1, finalizeThread p.2)))

/-- State of `buildHybridThreads`: thread map, processed set, and the
    `subjectToThread` map; `none` on walk divergence. -/
def HybridState := Option (List (String × SThread) × List String × List (String × String))

/-- Loop body of `buildHybridThreads`: message-id walk, then subject lookup,
    then a fresh thread keyed `email.messageId || email.id` whose normalized
    subject (when truthy) is recorded in `subjectToThread`. -/
def stepHybrid (idx : String → Option AEmail) (fuel : Nat) (st : HybridState)
    (e : AEmail) : HybridState :=
  match st with
  | none => none
  | some (threads, processed, subjectToThread) =>
    if processed.contains e.id then some (threads, processed, subjectToThread)
    else
      match walkRootId idx fuel e with
      | none => none
      | some tid0 =>
        let walkFound : Bool :=
          match e.inReplyTo with
          | some r => r ≠ "" && (idx r).isSome && (jsMapGet threads tid0).isSome
          | none => false
        let subjectHit : Option String :=
          if !walkFound && e.normalizedSubject ≠ "" then
            match jsMapGet subjectToThread e.normalizedSubject with
            | some tid1 => if (jsMapGet threads tid1).isSome then some tid1 else none
            | none => none
          else none
        match walkFound, subjectHit with
        | true, _ =>
          let c := commitEmail threads processed tid0 e "hybrid-message-id-subject"
          some (c.1, c.2, subjectToThread)
        | false, some tid1 =>
          let c := commitEmail threads processed tid1 e "hybrid-message-id-subject"
          some (c.1, c.2, subjectToThread)
        | false, none =>
          let tid := jsOr e.messageId e.id
          let subjectToThread :=
            if e.normalizedSubject ≠ "" then jsMapSet subjectToThread e.normalizedSubject tid
            else subjectToThread
          let c := commitEmail threads processed tid e "hybrid-message-id-subject"
          some (c.1, c.2, subjectToThread)

/-- Approach 3, `buildHybridThreads`. -/
def buildHybridThreads (idx : String → Option AEmail) (emails : List AEmail) :
    Option (List (String × SThread)) :=
  match emails.foldl (stepHybrid idx (emails.length + 1)) (some ([], [], [])) with
  | none => none
  | some (threads, _, _) => some (threads.map (fun p => (p.1, finalizeThread p.2)))

/-- The pipeline `getAllThreadableEmails` feeds approach 3 with:
    `messageIdToEmail` is registered in input (document) order, then
    `this.emails = emails.sort((a, b) => a.dateSent - b.dateSent)` (stable). -/
def hybridPipeline (emails : List AEmail) : Option (List (String × SThread)) :=
  buildHybridThreads (idxOf emails) (emails.insertionSort aDateLe)

/-! ## getAllThreadableEmails record assembly (for the timestamp claim) -/

/-- The output record of `extractEmailHeaders(doc.body)`: each field is present
    exactly when its regex matched.  `dateSent` is `new Date(match)` — a Date
    object that is truthy even when Invalid (`new Date` never throws; the JS
    `catch` branch is dead code). -/
structure Headers where
  messageId : Option String := none
  inReplyTo : Option String := none
  references : Option (List String) := none
  fromAddr : Option String := none
  toAddrs : Option (List String) := none
  subject : Option String := none
  dateSent : Option JsDate := none
deriving DecidableEq

/-- The Solr document fields `getAllThreadableEmails` reads
    (`fl=id,body,email_subject,email_from_str,email_to_str,email_datesent`;
    the `email_from_str`/`email_to_str` array unwrapping is taken in its
    scalar form). -/
structure SolrDoc where
  id : String
  body : String := ""
  email_subject : Option String := none
  email_from_str : Option String := none
  email_to_str : List String := []
  email_datesent : Option String := none
deriving DecidableEq

/-- The email object built for one document (`getAllThreadableEmails` loop
    body).  `parseDate` stands for the JS builtin `new Date(string)` applied to
    `doc.email_datesent` (never throwing, possibly Invalid); `now` is
    `new Date()`.  Note the `dateSent` fallback chain: an extracted Date header
    (even Invalid) wins; else a truthy `email_datesent` is parsed; else the
    current time is used.  Every document yields a record — nothing is excluded
    and no diagnostics are produced. -/
def emailOfDoc (parseDate : String → JsDate) (now : JsDate) (hd : Headers × SolrDoc) : AEmail :=
  let headers := hd.1
  let doc := hd.2
  { id := doc.id
    messageId := headers.messageId
    inReplyTo := headers.inReplyTo
    references := headers.references.getD []
    fromAddr := jsOr headers.fromAddr (jsOr doc.email_from_str "Unknown")
    toAddrs := (headers.toAddrs).getD (doc.email_to_str.filter (fun s => s ≠ ""))
    subject := jsOr (jsOrO headers.subject doc.email_subject) "No Subject"
    normalizedSubject := normalizeSubject (jsOrO headers.subject doc.email_subject)
    dateSent :=
      match headers.dateSent with
      | some d => d
      | none =>
        match doc.email_datesent with
        | some s => if s ≠ "" then parseDate s else now
        | none => now
    body := doc.body }

/-- `getAllThreadableEmails` as a whole: one record per document, then the
    date sort. -/
def getAllThreadableEmailsModel (parseDate : String → JsDate) (now : JsDate)
    (docs : List (Headers × SolrDoc)) : List AEmail :=
  ((docs.map (emailOfDoc parseDate now)).insertionSort aDateLe)

/-! ## Fixtures -/

/-- Shorthand for fixture records of `EmailThreadProcessor`: message id, parent
    id, timestamp, one shared thread. -/
def fxEmail (mid : String) (par : Option String) (t : Int) : PEmail :=
  { id := mid, messageId := some mid, inReplyTo := par, threadId := some "T", dateSent := t }

/-- The canonical 13-message fixture of the repository's threading-pattern
    document: root A; replies B, C and late reply L to A; D and forward E under
    B; G and forward H under D; I under E; F and forward K under C; J under F;
    M under L — listed in `dateSent` order, as `groupByThreads` delivers a
    thread's emails. -/
def fixture13 : List PEmail :=
  [ fxEmail "A" none 0, fxEmail "B" (some "A") 1, fxEmail "C" (some "A") 2,
    fxEmail "D" (some "B") 3, fxEmail "E" (some "B") 4, fxEmail "F" (some "C") 5,
    fxEmail "G" (some "D") 6, fxEmail "H" (some "D") 7, fxEmail "I" (some "E") 8,
    fxEmail "J" (some "F") 9, fxEmail "K" (some "C") 10, fxEmail "L" (some "A") 11,
    fxEmail "M" (some "L") 12 ]

/-- Identifier of the `i`-th chain record: `i + 1` copies of `a` — nonempty
    (hence truthy) and injective in `i`. -/
def rep (i : Nat) : String := String.mk (List.replicate (i + 1) 'a')

/-- The `i`-th record of the synthetic linear-chain batch: each record is the
    parent of the next via its identifier, all in one thread, timestamps
    strictly increasing. -/
def chainEmail (i : Nat) : PEmail :=
  { id := rep i, messageId := some (rep i),
    inReplyTo := if i = 0 then none else some (rep (i - 1)),
    threadId := some "T", dateSent := (i : Int) }

/-- The linear reply chain of `n` records. -/
def chain (n : Nat) : List PEmail := (List.range n).map chainEmail

/-- Mutual-parent cycle, `AdvancedSolrProcessor` form: X names Y's identifier
    as parent and Y names X's. -/
def cycX : AEmail :=
  { id := "bx", messageId := some "x", inReplyTo := some "y", subject := "s",
    dateSent := .valid 0 }

def cycY : AEmail :=
  { id := "by", messageId := some "y", inReplyTo := some "x", subject := "s",
    dateSent := .valid 1 }

/-- The same mutual-parent pair, `EmailThreadProcessor` form. -/
def cycPX : PEmail :=
  { id := "bx", messageId := some "x", inReplyTo := some "y", threadId := some "T",
    dateSent := 0 }

def cycPY : PEmail :=
  { id := "by", messageId := some "y", inReplyTo := some "x", threadId := some "T",
    dateSent := 1 }

/-- Proximity fixture: `proxA` opens a thread at time 0 with participant `a`;
    `proxB` opens a second thread ten hours later with participant `b`;
    `proxC` arrives at hour twelve with no identifiers, addressed to both `a`
    and `b`, so both open threads are within the 24h window and share a
    participant — the most recently active one is `proxB`'s thread. -/
def proxA : AEmail :=
  { id := "1", messageId := some "m1", fromAddr := "a", subject := "s1",
    dateSent := .valid 0 }

def proxB : AEmail :=
  { id := "2", messageId := some "m2", fromAddr := "b", subject := "s2",
    dateSent := .valid 36000000 }

def proxC : AEmail :=
  { id := "3", fromAddr := "c", toAddrs := ["a", "b"], subject := "s3",
    dateSent := .valid 43200000 }

/-- Order-sensitivity fixture for the hybrid strategy: `hybA` is a root,
    `hybB` replies to it under a different normalized subject, `hybC` shares
    `hybB`'s normalized subject and has no identifiers.  All three carry the
    same timestamp, so the pre-threading date sort (stable) preserves any
    input order. -/
def hybA : AEmail :=
  { id := "1", messageId := some "m1", subject := "x", normalizedSubject := "x",
    dateSent := .valid 0 }

def hybB : AEmail :=
  { id := "2", messageId := some "m2", inReplyTo := some "m1", subject := "y",
    normalizedSubject := "y", dateSent := .valid 0 }

def hybC : AEmail :=
  { id := "3", subject := "y", normalizedSubject := "y", dateSent := .valid 0 }

/-- Duplicate-identifier fixture: two distinct records carrying the same
    `messageId`. -/
def dupFirst : AEmail := { id := "1", messageId := some "m", dateSent := .valid 0 }

def dupSecond : AEmail := { id := "2", messageId := some "m", dateSent := .valid 1 }

/-- A Solr document with an empty body (so `extractEmailHeaders` returns the
    empty record) and no `email_datesent` field: no timestamp is available
    anywhere for it. -/
def undatedDoc : Headers × SolrDoc := ({}, { id := "doc1" })

/-- A record whose threads cannot hold it: `groupByThreads` requires a truthy
    `threadId`. -/
def orphanRecord : PEmail := { id := "1", subject := "hello" }

/-- A row whose `column_history` has `MSG-ID:` and `IN-REPLY-TO:` entries but
    no `REFS:` entry. -/
def rowNoRefs : CsvRow :=
  { begBates := "B1", column_history := some "MSG-ID:a|IN-REPLY-TO:b",
    fromField := "x@y", subject := "s" }

/-- A thread whose sole participant is shared with nobody in the fixtures —
    used to exercise the proximity scan skipping a non-matching thread. -/
def scanT1 : SThread :=
  { id := "m1", emails := [proxA], subject := "s1", participants := ["zz"],
    method := "message-id-proximity" }

/-- A thread `proxC` shares participant `b` with. -/
def scanT2 : SThread :=
  { id := "m2", emails := [proxB], subject := "s2", participants := ["b"],
    method := "message-id-proximity" }

/-- The parts of a `column_history` value as `parseColumnHistory` sees them
    (`[]` for a falsy value, which skips the fold entirely). -/
def historyParts (ch : Option String) : List String :=
  match ch with
  | none => []
  | some s => if s = "" then [] else jsSplit '|' s

/-! ## Lemmas about the JS map model -/

theorem jsMapGet_map_replace {K V : Type} [DecidableEq K] (m : List (K × V))
    (k k' : K) (v : V) (hne : k' ≠ k) :
    jsMapGet (m.map (fun p => if p.1 == k then (k, v) else p)) k' = jsMapGet m k' := by
  induction m with
  | nil => rfl
  | cons p rest ih =>
    by_cases hpk : p.1 = k
    · simpa [jsMapGet, hpk, Ne.symm hne] using ih
    · by_cases hpk' : p.1 = k'
      · simp [jsMapGet, hpk, hpk', hne]
      · simpa [jsMapGet, hpk, hpk'] using ih

theorem jsMapGet_map_replace_self {K V : Type} [DecidableEq K] (m : List (K × V))
    (k : K) (v : V) (hhas : m.any (fun p => p.1 == k) = true) :
    jsMapGet (m.map (fun p => if p.1 == k then (k, v) else p)) k = some v := by
  induction m with
  | nil => simp at hhas
  | cons p rest ih =>
    by_cases hpk : p.1 = k
    · simp [jsMapGet, hpk]
    · have hhas' : rest.any (fun p => p.1 == k) = true := by
        simpa [List.any_cons, hpk] using hhas
      simpa [jsMapGet, hpk] using ih hhas'

theorem jsMapGet_append_single {K V : Type} [DecidableEq K] (m : List (K × V))
    (k : K) (v : V) (k' : K) (hhas : m.any (fun p => p.1 == k) = false) :
    jsMapGet (m ++ [(k, v)]) k' = if k' = k then some v else jsMapGet m k' := by
  induction m with
  | nil =>
    by_cases h : k' = k
    · simp [jsMapGet, h]
    · simp [jsMapGet, h, Ne.symm h]
  | cons p rest ih =>
    have hpk : ¬ p.1 = k := by
      intro h
      simp [List.any_cons, h] at hhas
    have hhas' : rest.any (fun p => p.1 == k) = false := by
      simpa [List.any_cons, hpk] using hhas
    by_cases hpk' : p.1 = k'
    · have hk'k : k' ≠ k := fun h => hpk (hpk'.trans h)
      simp [jsMapGet, hpk', hk'k]
    · simpa [jsMapGet, hpk'] using ih hhas'

/-- JS `Map.set` then `get`: the set key now yields the new value, all other
    keys are untouched. -/
theorem jsMapGet_set {K V : Type} [DecidableEq K] (m : List (K × V)) (k : K) (v : V)
    (k' : K) :
    jsMapGet (jsMapSet m k v) k' = if k' = k then some v else jsMapGet m k' := by
  rw [jsMapSet]
  by_cases hhas : m.any (fun p => p.1 == k) = true
  · rw [if_pos hhas]
    by_cases hk : k' = k
    · subst hk; rw [if_pos rfl]; exact jsMapGet_map_replace_self m k' v hhas
    · rw [if_neg hk]; exact jsMapGet_map_replace m k k' v hk
  · have hhas' : m.any (fun p => p.1 == k) = false := by
      cases h : m.any (fun p => p.1 == k) with
      | false => rfl
      | true => exact absurd h hhas
    rw [if_neg (by simp [hhas'])]
    exact jsMapGet_append_single m k v k' hhas'

/-- `Map.has` agrees with `get` being defined. -/
theorem jsMapHas_eq_isSome {K V : Type} [DecidableEq K] (m : List (K × V)) (k : K) :
    jsMapHas m k = (jsMapGet m k).isSome := by
  induction m with
  | nil => rfl
  | cons p rest ih =>
    by_cases hpk : p.1 = k
    · simp [jsMapHas, jsMapGet, hpk]
    · have h1 : (p.1 == k) = false := by simp [hpk]
      simpa [jsMapHas, jsMapGet, h1] using ih

/-- `find?` is the head of `filter`. -/
theorem find?_eq_head_filter {α : Type} (p : α → Bool) (l : List α) :
    l.find? p = (l.filter p).head? := by
  induction l with
  | nil => rfl
  | cons a t ih =>
    by_cases ha : p a = true
    · rw [List.find?_cons_of_pos _ ha, List.filter_cons_of_pos ha, List.head?_cons]
    · rw [List.find?_cons_of_neg _ ha, List.filter_cons_of_neg ha, ih]

/-- Searching a reversed list finds the last match of the original. -/
theorem find?_reverse_eq_getLast_filter {α : Type} (p : α → Bool) (l : List α) :
    l.reverse.find? p = (l.filter p).getLast? := by
  rw [find?_eq_head_filter, List.filter_reverse, List.head?_reverse]

/-- Lookup in a fold-built index: the last list element carrying the key wins
    (JS `Map.set` overwrite). -/
theorem buildIdx_get_aux {K V : Type} [DecidableEq K] (keyOf : V → Option K)
    (l : List V) (m : List (K × V)) (k : K) :
    jsMapGet (l.foldl (fun m e => match keyOf e with | some k => jsMapSet m k e | none => m) m) k =
      (l.reverse.find? (fun e => decide (keyOf e = some k))).or (jsMapGet m k) := by
  induction l generalizing m with
  | nil => simp
  | cons e t ih =>
    rw [List.foldl_cons, ih]
    have hstep :
        jsMapGet (match keyOf e with | some k => jsMapSet m k e | none => m) k =
          ([e].find? (fun e => decide (keyOf e = some k))).or (jsMapGet m k) := by
      cases hk : keyOf e with
      | none => simp [List.find?, hk]
      | some k0 =>
        simp only [List.find?, hk]
        by_cases hkk : k0 = k
        · subst hkk
          simp [jsMapGet_set]
        · have hne : (decide (some k0 = some k)) = false := by simp [hkk]
          rw [hne]
          simp only [Option.none_or]
          rw [jsMapGet_set]
          simp [Ne.symm hkk]
    rw [hstep, List.reverse_cons, List.find?_append, Option.or_assoc]

theorem buildIdx_get {K V : Type} [DecidableEq K] (keyOf : V → Option K)
    (l : List V) (k : K) :
    jsMapGet (buildIdx keyOf l) k = l.reverse.find? (fun e => decide (keyOf e = some k)) := by
  rw [buildIdx, buildIdx_get_aux]
  simp [jsMapGet]

/-! ## Claim C5 — duplicate message ids in the identity index -/

/-- Claim C5, as amended: after registration the `messageIdToEmail` index maps
    a (truthy) `messageId` to the LAST record seen with it — `Map.set`
    overwrites, so the later duplicate wins, and no duplicate diagnostic is
    produced anywhere (`getAllThreadableEmails` returns only the email list). -/
theorem claim5_amended (l : List AEmail) (m : String) (hm : m ≠ "") :
    jsMapGet (registerAll l) m = (l.filter (fun e => e.messageId == some m)).getLast? := by
  rw [registerAll, buildIdx_get]
  have hpred : (fun e => decide (aKeyOf e = some m)) = (fun (e : AEmail) => e.messageId == some m) := by
    funext e
    rw [Bool.eq_iff_iff]
    rw [aKeyOf]
    cases h : e.messageId with
    | none => simp
    | some s =>
      by_cases hs : s = ""
      · subst hs
        simp [Ne.symm hm]
      · simp [hs]
  rw [hpred, find?_reverse_eq_getLast_filter]

/-- Witness for C5's amended claim at a concrete duplicate pair. -/
theorem claim5_amended_witness :
    ("m" : String) ≠ "" ∧
      jsMapGet (registerAll [dupFirst, dupSecond]) "m" =
        ([dupFirst, dupSecond].filter (fun e => e.messageId == some "m")).getLast? :=
  ⟨by decide, claim5_amended [dupFirst, dupSecond] "m" (by decide)⟩

/-- Claim C5 counterexample: registering two records with the same `messageId`
    leaves the index holding the SECOND record, not the first-seen one as the
    claim states. -/
theorem claim5_counterexample :
    jsMapGet (registerAll [dupFirst, dupSecond]) "m" = some dupSecond ∧
      dupSecond ≠ dupFirst := by
  constructor
  · rfl
  · decide

/-! ## Claim C2 — mutual-parent cycle -/

/-- Claim C2 (code bug): on the mutual-parent pair the root walk of
    `buildMessageIdOnlyThreads` never terminates for ANY amount of fuel (the
    loop alternates X → Y → X → …), so the strategy diverges (`none`), and
    `buildThreadTree` on the same pair produces a forest with NO roots (both
    nodes are attached under each other and silently disappear from the root
    list) — no edge is dropped, nothing is promoted to a root, and no
    diagnostic exists. -/
theorem claim2_cycle_diverges :
    (∀ fuel, findRootAux (idxOf [cycX, cycY]) fuel cycX = none) ∧
      buildMessageIdOnlyThreads (idxOf [cycX, cycY]) [cycX, cycY] = none ∧
      buildRoots [cycPX, cycPY] = TNs.nil := by
  refine ⟨?_, by decide, rfl⟩
  have key : ∀ fuel, findRootAux (idxOf [cycX, cycY]) fuel cycX = none ∧
      findRootAux (idxOf [cycX, cycY]) fuel cycY = none := by
    intro fuel
    induction fuel with
    | zero => exact ⟨rfl, rfl⟩
    | succ f ih =>
      refine ⟨?_, ?_⟩
      · have hstep : findRootAux (idxOf [cycX, cycY]) (f + 1) cycX =
            findRootAux (idxOf [cycX, cycY]) f cycY := rfl
        rw [hstep]
        exact ih.2
      · have hstep : findRootAux (idxOf [cycX, cycY]) (f + 1) cycY =
            findRootAux (idxOf [cycX, cycY]) f cycX := rfl
        rw [hstep]
        exact ih.1
  exact fun fuel => (key fuel).1

/-! ## Claim C6 — subject normalisation -/

/-- Claim C6 counterexample: the marker-stripping regex is anchored, so despite
    its `g` flag only the FIRST leading marker is removed — `"Re: Re: Fwd:
    Budget"` normalises to `"re: fwd: budget"`, not `"budget"` as the claim
    (full repeated stripping) requires. -/
theorem claim6_counterexample :
    normalizeSubject (some "Re: Re: Fwd: Budget") = "re: fwd: budget" ∧
      ("re: fwd: budget" : String) ≠ "budget" := by
  constructor
  · rfl
  · decide

/-- Claim C6, as amended: `normalizeSubject` strips exactly ONE leading
    reply/forward marker together with the whitespace run following it, then
    trims and lower-cases the remainder — which may therefore still begin with
    further markers. -/
theorem claim6_amended (s : List Char) :
    normalizeSubject (some (String.mk ('R' :: 'e' :: ':' :: s))) =
      String.mk ((jsTrimL (s.dropWhile jsIsSpace)).map Char.toLower) := by
  have hne : String.mk ('R' :: 'e' :: ':' :: s) ≠ "" := by
    intro h
    have h2 := String.ext_iff.mp h
    simp at h2
  rw [normalizeSubject, if_neg hne]
  simp only [stripMarkerWs, headIs]
  rw [if_pos (show 'R'.toLower = 'r' from by decide),
    if_pos (show 'e'.toLower = 'e' from by decide),
    if_pos (show ':'.toLower = ':' from by decide)]

/-! ## Claim C10 — missing REFS entry and EML export -/

theorem parseFold_refs_none (parts : List String) (acc : ThreadInfo)
    (hacc : acc.references = none)
    (hparts : ∀ part ∈ parts, strStarts "REFS:" part = false) :
    (parts.foldl parsePart acc).references = none := by
  induction parts generalizing acc with
  | nil => exact hacc
  | cons part rest ih =>
    rw [List.foldl_cons]
    refine ih (parsePart acc part) ?_ (fun q hq => hparts q (List.mem_cons_of_mem _ hq))
    have hp : strStarts "REFS:" part = false := hparts part (List.mem_cons_self _ _)
    rw [parsePart]
    split
    · exact hacc
    · split
      · exact hacc
      · split
        · simp_all
        · split
          · exact hacc
          · split
            · exact hacc
            · split
              · exact hacc
              · exact hacc

theorem parseColumnHistory_eq_fold (ch : Option String) :
    parseColumnHistory ch = (historyParts ch).foldl parsePart {} := by
  cases ch with
  | none => rfl
  | some s =>
    by_cases hs : s = ""
    · simp [parseColumnHistory, historyParts, hs]
    · simp [parseColumnHistory, historyParts, hs]

/-- Claim C10 (confirmed): a loaded record whose `column_history` contains no
    `REFS:` entry has `references` left `undefined`, and exporting it
    (`generateEmlContent`) throws the `TypeError` from reading
    `references.length` instead of producing output. -/
theorem claim10_missing_refs (row : CsvRow)
    (h : ∀ part ∈ historyParts row.column_history, strStarts "REFS:" part = false) :
    (emailOfRow row).references = none ∧
      generateEmlContent (emailOfRow row) =
        .error "TypeError: Cannot read properties of undefined (reading length)" := by
  have href : (parseColumnHistory row.column_history).references = none := by
    rw [parseColumnHistory_eq_fold]
    exact parseFold_refs_none _ {} rfl h
  have hrefs : (emailOfRow row).references = none := by
    rw [emailOfRow]
    exact href
  refine ⟨hrefs, ?_⟩
  rw [generateEmlContent, hrefs]

/-- Witness for C10 at a concrete row carrying `MSG-ID:` and `IN-REPLY-TO:`
    entries but no `REFS:` entry. -/
theorem claim10_witness :
    (emailOfRow rowNoRefs).references = none ∧
      generateEmlContent (emailOfRow rowNoRefs) =
        .error "TypeError: Cannot read properties of undefined (reading length)" :=
  claim10_missing_refs rowNoRefs (by decide)

/-! ## Claim C1 — branch counting -/

mutual
theorem nodeBranches_decomp (n : TN) :
    nodeBranches n = ((nodeList n).map (fun t => childCount t - 1)).sum +
      ((nodeList n).filter (fun t => childCount t > 1)).length := by
  match n with
  | .mk e cs =>
    have ih := countBranches_decomp cs
    rw [specBranchCount, branchNodeCount] at ih
    rw [nodeBranches, nodeList, List.map_cons, List.sum_cons]
    have hcc : childCount (TN.mk e cs) = tnsLength cs := rfl
    by_cases hL : tnsLength cs > 1
    · rw [if_pos hL, List.filter_cons_of_pos (by simp [childCount, hL]), List.length_cons,
        hcc]
      omega
    · rw [if_neg hL, List.filter_cons_of_neg (by simp [childCount, hL]), hcc]
      omega

theorem countBranches_decomp (ns : TNs) :
    countBranches ns = specBranchCount ns + branchNodeCount ns := by
  match ns with
  | .nil => rfl
  | .cons n rest =>
    have ih1 := nodeBranches_decomp n
    have ih2 := countBranches_decomp rest
    rw [specBranchCount, branchNodeCount] at ih2
    rw [countBranches, specBranchCount, branchNodeCount, tnsList, List.map_append,
      List.sum_append, List.filter_append, List.length_append]
    omega
end

/-- Claim C1, as amended: `countBranches` adds, for every node with more than
    one child, the FULL child count (`children.length`, not
    `children.length - 1`); equivalently it exceeds the specification's
    formula by exactly the number of branch points. -/
theorem claim1_amended (ns : TNs) :
    countBranches ns = specBranchCount ns + branchNodeCount ns :=
  countBranches_decomp ns

/-- Claim C1 counterexample: on the canonical 13-message fixture the computed
    `branchCount` is 9 — neither the claimed value 4 nor the 5 the claimed
    `max(0, childCount - 1)` formula yields on this tree. -/
theorem claim1_counterexample :
    countBranches (buildRoots fixture13) = 9 ∧
      specBranchCount (buildRoots fixture13) = 5 ∧
      (9 : Nat) ≠ 4 ∧ (9 : Nat) ≠ 5 := by
  refine ⟨by decide, by decide, by decide, by decide⟩

/-! ## Claim C3 — proximity fallback thread choice -/

/-- Claim C3, as amended: when the identifier tiers fail, the record joins the
    FIRST thread in the map's insertion order whose last email is within the
    window and which shares a participant; the scan stops there (`break`), so
    threads appearing earlier and not matching are skipped and no recency or
    identifier tie-break is ever consulted. -/
theorem claim3_amended (h : Int) (e : AEmail) (ts : List (String × SThread))
    (p : String × SThread) (hfound : proximityScan h e ts = some p) :
    proximityMatch h e p = true ∧
      ∃ pre suf, ts = pre ++ p :: suf ∧ ∀ q ∈ pre, proximityMatch h e q = false := by
  induction ts with
  | nil => simp [proximityScan] at hfound
  | cons t rest ih =>
    rw [proximityScan] at hfound
    by_cases hm : proximityMatch h e t = true
    · rw [if_pos hm] at hfound
      have ht : t = p := by injection hfound
      subst ht
      exact ⟨hm, [], rest, rfl, by simp⟩
    · rw [if_neg hm] at hfound
      obtain ⟨hmp, pre, suf, heq, hpre⟩ := ih hfound
      refine ⟨hmp, t :: pre, suf, by rw [heq]; rfl, ?_⟩
      intro q hq
      rcases List.mem_cons.mp hq with h1 | h2
      · subst h1
        exact Bool.eq_false_iff.mpr hm
      · exact hpre q h2

/-- Witness for C3's amended claim: the scan skips the earlier non-matching
    thread and returns the first matching one. -/
theorem claim3_amended_witness :
    proximityMatch 24 proxC ("m2", scanT2) = true ∧
      ∃ pre suf, [("m1", scanT1), ("m2", scanT2)] = pre ++ ("m2", scanT2) :: suf ∧
        ∀ q ∈ pre, proximityMatch 24 proxC q = false :=
  claim3_amended 24 proxC [("m1", scanT1), ("m2", scanT2)] ("m2", scanT2) (by decide)

/-- Claim C3 counterexample: with two open threads both within the window and
    sharing a participant with record `proxC`, the record is filed under thread
    `m1` (first inserted, last active at time 0) and NOT under `m2` (last
    active ten hours later, i.e. the most recently active matching thread the
    claim requires). -/
theorem claim3_counterexample :
    ((buildMessageIdWithProximityThreads (idxOf [proxA, proxB, proxC]) 24
        [proxA, proxB, proxC]).map
      (fun ths => ths.map (fun p => (p.1, p.2.emails.map (fun e => e.id))))) =
      some [("m1", ["1", "3"]), ("m2", ["2"])] := by decide

/-! ## Claim C4 — thread assignment totality -/

theorem groupFold_get (emails : List PEmail) (acc : List (String × List PEmail))
    (t : String) (ht : t ≠ "") :
    jsMapGet (emails.foldl (fun m e =>
        match e.threadId with
        | some t' => if t' = "" then m else jsMapSet m t' ((jsMapGet m t').getD [] ++ [e])
        | none => m) acc) t =
      (if emails.filter (fun e => e.threadId == some t) = [] then jsMapGet acc t
       else some ((jsMapGet acc t).getD [] ++ emails.filter (fun e => e.threadId == some t))) := by
  induction emails generalizing acc with
  | nil => simp
  | cons e rest ih =>
    rw [List.foldl_cons, ih]
    by_cases he : e.threadId = some t
    · have hbeq : (e.threadId == some t) = true := by simp [he]
      rw [@List.filter_cons_of_pos PEmail (fun e => e.threadId == some t) e rest hbeq]
      have hstep : (match e.threadId with
          | some t' => if t' = "" then acc else jsMapSet acc t' ((jsMapGet acc t').getD [] ++ [e])
          | none => acc) = jsMapSet acc t ((jsMapGet acc t).getD [] ++ [e]) := by
        rw [he]
        simp [ht]
      rw [hstep]
      have hget : jsMapGet (jsMapSet acc t ((jsMapGet acc t).getD [] ++ [e])) t =
          some ((jsMapGet acc t).getD [] ++ [e]) := by
        rw [jsMapGet_set, if_pos rfl]
      rw [hget]
      by_cases hrest : rest.filter (fun e => e.threadId == some t) = []
      · rw [if_pos hrest, hrest, if_neg (by simp)]
      · rw [if_neg hrest, if_neg (by simp)]
        simp [List.append_assoc]
    · have hbeq : (e.threadId == some t) = false := by simp [he]
      rw [@List.filter_cons_of_neg PEmail (fun e => e.threadId == some t) e rest (by simp [hbeq])]
      have hstep : jsMapGet (match e.threadId with
          | some t' => if t' = "" then acc else jsMapSet acc t' ((jsMapGet acc t').getD [] ++ [e])
          | none => acc) t = jsMapGet acc t := by
        cases het : e.threadId with
        | none => rfl
        | some t' =>
          by_cases ht' : t' = ""
          · simp [ht']
          · have htt : t ≠ t' := by
              intro hcontr
              exact he (by rw [het, hcontr])
            simp [ht', jsMapGet_set, htt]
      rw [hstep]

theorem jsMapGet_map_snd {K V W : Type} [DecidableEq K] (m : List (K × V))
    (f : V → W) (k : K) :
    jsMapGet (m.map (fun p => (p.1, f p.2))) k = (jsMapGet m k).map f := by
  induction m with
  | nil => rfl
  | cons p rest ih =>
    by_cases hpk : p.1 = k
    · simp [jsMapGet, hpk]
    · simpa [jsMapGet, hpk] using ih

/-- Claim C4, as amended: `groupByThreads` assigns every record with a truthy
    `threadId` to exactly the bucket named by it — the bucket for `t` is
    precisely the date-sorted list of records whose `threadId` is `t` — while
    records with a missing or empty `threadId` are silently dropped
    (`if (!email.threadId) return;`), not given a fresh thread. -/
theorem claim4_amended (emails : List PEmail) (t : String) (ht : t ≠ "") :
    jsMapGet (groupByThreads emails) t =
      if emails.filter (fun e => e.threadId == some t) = [] then none
      else some ((emails.filter (fun e => e.threadId == some t)).insertionSort pDateLe) := by
  rw [groupByThreads]
  rw [jsMapGet_map_snd]
  rw [groupFold_get emails [] t ht]
  by_cases hf : emails.filter (fun e => e.threadId == some t) = []
  · simp [hf, jsMapGet]
  · simp [hf, jsMapGet]

/-- Witness for C4's amended claim at a one-record batch. -/
theorem claim4_amended_witness :
    ("T" : String) ≠ "" ∧
      jsMapGet (groupByThreads [cycPX]) "T" =
        (if [cycPX].filter (fun e => e.threadId == some "T") = [] then none
         else some (([cycPX].filter (fun e => e.threadId == some "T")).insertionSort pDateLe)) :=
  ⟨by decide, claim4_amended [cycPX] "T" (by decide)⟩

/-- Claim C4 counterexample: a batch holding one record without a `threadId`
    produces NO threads at all — the record is dropped rather than appearing
    as the root of a new thread. -/
theorem claim4_counterexample : groupByThreads [orphanRecord] = [] := by decide

/-! ## Claim C7 — malformed or missing timestamps -/

/-- Claim C7, as amended: `getAllThreadableEmails` never excludes a record and
    produces no diagnostics — its output has one email per document — and a
    record with no extracted Date header and no `email_datesent` field has its
    timestamp silently defaulted to the current time (`new Date()`). -/
theorem claim7_amended (parseDate : String → JsDate) (now : JsDate)
    (docs : List (Headers × SolrDoc)) :
    (getAllThreadableEmailsModel parseDate now docs).length = docs.length ∧
      ∀ hd ∈ docs, hd.1.dateSent = none → hd.2.email_datesent = none →
        (emailOfDoc parseDate now hd).dateSent = now := by
  constructor
  · rw [getAllThreadableEmailsModel, (List.perm_insertionSort aDateLe _).length_eq,
      List.length_map]
  · intro hd _ h1 h2
    simp [emailOfDoc, h1, h2]

/-- Witness for C7's amended claim at a document with no timestamp anywhere. -/
theorem claim7_witness :
    (getAllThreadableEmailsModel (fun _ => JsDate.invalid) (JsDate.valid 1700000000000)
        [undatedDoc]).length = 1 ∧
      (emailOfDoc (fun _ => JsDate.invalid) (JsDate.valid 1700000000000) undatedDoc).dateSent =
        JsDate.valid 1700000000000 :=
  ⟨(claim7_amended (fun _ => JsDate.invalid) (JsDate.valid 1700000000000) [undatedDoc]).1,
    (claim7_amended (fun _ => JsDate.invalid) (JsDate.valid 1700000000000) [undatedDoc]).2
      undatedDoc (List.mem_singleton.mpr rfl) rfl rfl⟩

/-- Claim C7 counterexample: the undated document's record is NOT excluded —
    it is returned, with `dateSent` equal to the current time — and the
    function's result carries no diagnostic of any kind. -/
theorem claim7_counterexample :
    getAllThreadableEmailsModel (fun _ => JsDate.invalid) (JsDate.valid 1700000000000)
        [undatedDoc] =
      [emailOfDoc (fun _ => JsDate.invalid) (JsDate.valid 1700000000000) undatedDoc] ∧
      (emailOfDoc (fun _ => JsDate.invalid) (JsDate.valid 1700000000000) undatedDoc).dateSent =
        JsDate.valid 1700000000000 := by
  exact ⟨rfl, rfl⟩

/-! ## Claim C8 — linear chain reconstruction -/

theorem rep_ne_empty (i : Nat) : rep i ≠ "" := by
  intro h
  have h2 := String.ext_iff.mp h
  simp [rep] at h2

theorem rep_inj {i j : Nat} (h : rep i = rep j) : i = j := by
  have h2 : List.replicate (i + 1) 'a' = List.replicate (j + 1) 'a' := String.ext_iff.mp h
  have h3 := congrArg List.length h2
  simp [List.length_replicate] at h3
  omega

theorem chainEmail_inj {i j : Nat} (h : chainEmail i = chainEmail j) : i = j := by
  have h2 : some (rep i) = some (rep j) := congrArg PEmail.messageId h
  exact rep_inj (Option.some.inj h2)

theorem chainEmail_inReplyTo (i : Nat) :
    (chainEmail i).inReplyTo = if i = 0 then none else some (rep (i - 1)) := rfl

theorem chain_succ (n : Nat) : chain (n + 1) = chain n ++ [chainEmail n] := by
  rw [chain, chain, List.range_succ, List.map_append]
  rfl

theorem chain_length (n : Nat) : (chain n).length = n := by
  simp [chain]

theorem chain_find (n j : Nat) :
    (chain n).reverse.find? (fun e => decide (e.messageId = some (rep j))) =
      if j < n then some (chainEmail j) else none := by
  induction n with
  | zero => simp [chain]
  | succ n ih =>
    rw [chain_succ, List.reverse_append]
    simp only [List.reverse_cons, List.reverse_nil, List.nil_append, List.singleton_append]
    by_cases hnj : n = j
    · subst hnj
      rw [List.find?_cons_of_pos _ (by simp [chainEmail])]
      simp [Nat.lt_succ_self]
    · rw [List.find?_cons_of_neg _ (by
        simp only [decide_eq_true_eq]
        intro hcontr
        have : some (rep n) = some (rep j) := hcontr
        exact hnj (rep_inj (Option.some.inj this))), ih]
      by_cases hj : j < n
      · rw [if_pos hj, if_pos (by omega)]
      · rw [if_neg hj, if_neg (by omega)]

theorem pLookup_chain (n j : Nat) :
    pLookup (chain n) (some (rep j)) = if j < n then some (chainEmail j) else none := by
  rw [pLookup, pEmailMap, buildIdx_get]
  have hpred : (fun (e : PEmail) => decide (some e.messageId = some (some (rep j)))) =
      (fun (e : PEmail) => decide (e.messageId = some (rep j))) := by
    funext e
    exact decide_eq_decide.mpr (by simp)
  rw [hpred, chain_find]

theorem attach_chain (n j : Nat) (hj : j < n) :
    attachEmail (chain n) (chainEmail j) = chainEmail j := by
  rw [attachEmail]
  have hmid : (chainEmail j).messageId = some (rep j) := rfl
  rw [hmid, pLookup_chain, if_pos hj]
  rfl

theorem hasParent_chain (n i : Nat) (hi : i < n) :
    hasParentIn (chain n) (chainEmail i) = !(i == 0) := by
  by_cases hi0 : i = 0
  · subst hi0
    simp [hasParentIn, chainEmail_inReplyTo]
  · have hr : (chainEmail i).inReplyTo = some (rep (i - 1)) := by
      rw [chainEmail_inReplyTo, if_neg hi0]
    have hlook : pLookup (chain n) (some (rep (i - 1))) = some (chainEmail (i - 1)) := by
      rw [pLookup_chain, if_pos (by omega)]
    have hhas : jsMapHas (pEmailMap (chain n)) (some (rep (i - 1))) = true := by
      rw [jsMapHas_eq_isSome]
      have : jsMapGet (pEmailMap (chain n)) (some (rep (i - 1))) = some (chainEmail (i - 1)) :=
        hlook
      rw [this]
      rfl
    simp [hasParentIn, hr, hhas, rep_ne_empty, hi0]

theorem range_filter_single (n x : Nat) :
    (List.range n).filter (fun i => i == x) = if x < n then [x] else [] := by
  induction n with
  | zero => simp
  | succ n ih =>
    rw [List.range_succ, List.filter_append, ih]
    by_cases hx : n = x
    · subst hx
      have h1 : ([n].filter (fun i => i == n)) = [n] := by simp
      rw [h1, if_neg (by omega), if_pos (by omega), List.nil_append]
    · have h1 : ([n].filter (fun i => i == x)) = [] := by simp [hx]
      rw [h1, List.append_nil]
      by_cases hx2 : x < n
      · rw [if_pos hx2, if_pos (by omega)]
      · rw [if_neg hx2, if_neg (by omega)]

theorem chain_filter (q : PEmail → Bool) (n : Nat) :
    (chain n).filter q = ((List.range n).filter (fun i => q (chainEmail i))).map chainEmail := by
  rw [chain, List.filter_map]
  rfl

theorem isChildOf_chain (n j : Nat) :
    ∀ i ∈ List.range n, isChildOf (chain n) (chainEmail j) (chainEmail i) = (i == j + 1) := by
  intro i hi
  have hin : i < n := List.mem_range.mp hi
  by_cases hi0 : i = 0
  · subst hi0
    rw [isChildOf, hasParent_chain n 0 hin]
    have : (0 == j + 1) = false := by simp
    rw [this]
    rfl
  · have hr : (chainEmail i).inReplyTo = some (rep (i - 1)) := by
      rw [chainEmail_inReplyTo, if_neg hi0]
    have hlook : pLookup (chain n) (chainEmail i).inReplyTo = some (chainEmail (i - 1)) := by
      rw [hr, pLookup_chain, if_pos (by omega)]
    rw [isChildOf, hasParent_chain n i hin, hlook]
    have h1 : (!(i == 0)) = true := by simp [hi0]
    rw [h1, Bool.true_and]
    refine decide_eq_decide.mpr ?_
    constructor
    · intro hsome
      have := chainEmail_inj (Option.some.inj hsome)
      omega
    · intro hij
      have : i - 1 = j := by omega
      rw [this]

theorem childEmails_chain (n j : Nat) :
    childEmails (chain n) (chainEmail j) =
      if j + 1 < n then [chainEmail (j + 1)] else [] := by
  rw [childEmails, chain_filter, List.filter_congr (isChildOf_chain n j), range_filter_single]
  by_cases hj : j + 1 < n
  · rw [if_pos hj, if_pos hj]
    simp only [List.map_cons, List.map_nil]
    rw [attach_chain n (j + 1) hj]
  · rw [if_neg hj, if_neg hj]
    rfl

theorem nodeDepth_chain (n : Nat) :
    ∀ f j d, j < n → n ≤ j + f + 1 →
      nodeDepth (buildNode (chain n) f (chainEmail j)) d = d + (n - j) := by
  intro f
  induction f with
  | zero =>
    intro j d hj hf
    rw [buildNode, nodeDepth, calculateMaxDepth]
    omega
  | succ f ih =>
    intro j d hj hf
    rw [buildNode, childEmails_chain]
    by_cases hj1 : j + 1 < n
    · rw [if_pos hj1]
      simp only [List.map_cons, List.map_nil, listToTNs]
      rw [nodeDepth, calculateMaxDepth, calculateMaxDepth]
      rw [ih (j + 1) (d + 1) hj1 (by omega)]
      omega
    · rw [if_neg hj1]
      simp only [List.map_nil, listToTNs]
      rw [nodeDepth, calculateMaxDepth]
      omega

theorem nodeBranches_chain (n : Nat) :
    ∀ f j, nodeBranches (buildNode (chain n) f (chainEmail j)) = 0 := by
  intro f
  induction f with
  | zero =>
    intro j
    rw [buildNode]
    rfl
  | succ f ih =>
    intro j
    rw [buildNode, childEmails_chain]
    by_cases hj1 : j + 1 < n
    · rw [if_pos hj1]
      simp only [List.map_cons, List.map_nil, listToTNs]
      rw [nodeBranches, countBranches, countBranches, ih (j + 1)]
      rfl
    · rw [if_neg hj1]
      simp only [List.map_nil, listToTNs]
      rw [nodeBranches]
      rfl

theorem roots_chain (n : Nat) :
    (chain n).filter (fun e => !(hasParentIn (chain n) e)) =
      if n = 0 then [] else [chainEmail 0] := by
  rw [chain_filter]
  have hpt : ∀ i ∈ List.range n,
      (!(hasParentIn (chain n) (chainEmail i))) = (i == 0) := by
    intro i hi
    rw [hasParent_chain n i (List.mem_range.mp hi), Bool.not_not]
  rw [List.filter_congr hpt, range_filter_single]
  by_cases hn : 0 < n
  · rw [if_pos hn, if_neg (by omega)]
    rfl
  · rw [if_neg hn, if_pos (by omega)]
    rfl

/-- Claim C8 (confirmed): a batch of `n` records forming one linear reply
    chain via parent identifiers resolves to a single-root path with
    `maxDepth = n` (the root counting as depth 1 — `calculateMaxDepth` starts
    at 0 and adds 1 per level) and `branchCount = 0`. -/
theorem claim8_chain (n : Nat) :
    calculateMaxDepth (buildRoots (chain n)) 0 = n ∧
      countBranches (buildRoots (chain n)) = 0 := by
  rw [buildRoots, roots_chain]
  by_cases hn : n = 0
  · subst hn
    exact ⟨rfl, rfl⟩
  · rw [if_neg hn]
    have h0n : 0 < n := Nat.pos_of_ne_zero hn
    simp only [List.map_cons, List.map_nil, listToTNs]
    rw [attach_chain n 0 h0n, chain_length]
    constructor
    · rw [calculateMaxDepth, calculateMaxDepth]
      rw [nodeDepth_chain n n 0 0 h0n (by omega)]
      omega
    · rw [countBranches, countBranches, nodeBranches_chain n n 0]

/-! ## Claim C9 — determinism and input-order sensitivity -/

theorem sorted_strict_of_nodup_keys {l : List AEmail}
    (hsorted : List.Sorted aDateLe l)
    (hnodup : (l.map (fun e => dateVal e.dateSent)).Nodup) :
    List.Sorted aDateLt l := by
  have hne : l.Pairwise (fun a b => dateVal a.dateSent ≠ dateVal b.dateSent) :=
    List.pairwise_map.mp hnodup
  have hand := List.Pairwise.and hsorted hne
  exact hand.imp (fun h => lt_of_le_of_ne h.1 h.2)

/-- The pre-threading stable sort yields the same list for any two orderings
    of the batch once the timestamps are pairwise distinct. -/
theorem sort_eq_of_perm (l₁ l₂ : List AEmail) (hperm : l₁.Perm l₂)
    (hdates : (l₁.map (fun e => dateVal e.dateSent)).Nodup) :
    l₁.insertionSort aDateLe = l₂.insertionSort aDateLe := by
  have hs₁ := List.sorted_insertionSort aDateLe l₁
  have hs₂ := List.sorted_insertionSort aDateLe l₂
  have hp : (l₁.insertionSort aDateLe).Perm (l₂.insertionSort aDateLe) :=
    (List.perm_insertionSort aDateLe l₁).trans
      (hperm.trans (List.perm_insertionSort aDateLe l₂).symm)
  have hd₁ : ((l₁.insertionSort aDateLe).map (fun e => dateVal e.dateSent)).Nodup :=
    (List.Perm.nodup_iff ((List.perm_insertionSort aDateLe l₁).map _)).mpr hdates
  have hd₂ : ((l₂.insertionSort aDateLe).map (fun e => dateVal e.dateSent)).Nodup :=
    (List.Perm.nodup_iff
      (((List.perm_insertionSort aDateLe l₂).trans hperm.symm).map _)).mpr hdates
  exact List.eq_of_perm_of_sorted hp (sorted_strict_of_nodup_keys hs₁ hd₁)
    (sorted_strict_of_nodup_keys hs₂ hd₂)

theorem filter_key_len_le_one {K V : Type} [DecidableEq K] (keyOf : V → Option K)
    (l : List V) (k : K) (hnodup : (l.filterMap keyOf).Nodup) :
    (l.filter (fun e => decide (keyOf e = some k))).length ≤ 1 := by
  induction l with
  | nil => simp
  | cons e t ih =>
    cases hk : keyOf e with
    | none =>
      rw [List.filter_cons_of_neg (by simp [hk])]
      apply ih
      have : t.filterMap keyOf = (e :: t).filterMap keyOf := by
        rw [List.filterMap_cons_none hk]
      rw [this]
      exact hnodup
    | some k0 =>
      have hsplit : ((e :: t).filterMap keyOf) = k0 :: t.filterMap keyOf :=
        List.filterMap_cons_some hk
      rw [hsplit] at hnodup
      have hnodup' := List.nodup_cons.mp hnodup
      by_cases hkk : k0 = k
      · subst hkk
        rw [List.filter_cons_of_pos (by simp [hk])]
        have hempty : t.filter (fun e => decide (keyOf e = some k0)) = [] := by
          rw [List.filter_eq_nil_iff]
          intro a ha
          simp only [decide_eq_true_eq]
          intro hak
          exact hnodup'.1 (List.mem_filterMap.mpr ⟨a, ha, hak⟩)
        simp [hempty]
      · rw [List.filter_cons_of_neg (by simp [hk, hkk])]
        exact ih hnodup'.2

/-- The `messageIdToEmail` lookup is insensitive to the batch order when the
    registered message ids are pairwise distinct. -/
theorem idx_eq_of_perm (l₁ l₂ : List AEmail) (hperm : l₁.Perm l₂)
    (hids : (l₁.filterMap aKeyOf).Nodup) :
    idxOf l₁ = idxOf l₂ := by
  funext k
  show jsMapGet (registerAll l₁) k = jsMapGet (registerAll l₂) k
  rw [registerAll, registerAll, buildIdx_get, buildIdx_get,
    find?_reverse_eq_getLast_filter, find?_reverse_eq_getLast_filter]
  have hp := hperm.filter (fun e => decide (aKeyOf e = some k))
  have h1 := filter_key_len_le_one aKeyOf l₁ k hids
  have heq : l₁.filter (fun e => decide (aKeyOf e = some k)) =
      l₂.filter (fun e => decide (aKeyOf e = some k)) := by
    cases hcase : l₁.filter (fun e => decide (aKeyOf e = some k)) with
    | nil =>
      rw [hcase] at hp
      exact (List.Perm.nil_eq hp)
    | cons a t2 =>
      rw [hcase] at hp h1
      have ht2 : t2 = [] := by
        cases t2 with
        | nil => rfl
        | cons b t3 => simp at h1
      subst ht2
      exact List.singleton_perm.mp hp
  rw [heq]

/-- Claim C9, as amended: the hybrid resolution is a pure function of the
    processed sequence, and because the batch is sorted by `dateSent` before
    threading, any two input orderings produce literally identical results
    whenever the timestamps are pairwise distinct and the (registered) message
    ids are unique — the uniqueness the specification itself postulates.  With
    tied timestamps the stable sort preserves input order and thread identity
    and membership can differ (see the counterexample). -/
theorem claim9_amended (l₁ l₂ : List AEmail) (hperm : l₁.Perm l₂)
    (hdates : (l₁.map (fun e => dateVal e.dateSent)).Nodup)
    (hids : (l₁.filterMap aKeyOf).Nodup) :
    hybridPipeline l₁ = hybridPipeline l₂ := by
  rw [hybridPipeline, hybridPipeline, idx_eq_of_perm l₁ l₂ hperm hids,
    sort_eq_of_perm l₁ l₂ hperm hdates]

/-- Witness for C9's amended claim at a two-record batch with distinct
    timestamps and ids, in both orders. -/
theorem claim9_amended_witness :
    hybridPipeline [proxB, proxA] = hybridPipeline [proxA, proxB] :=
  claim9_amended [proxB, proxA] [proxA, proxB] (by decide) (by decide) (by decide)

/-- Claim C9 counterexample: two orderings of the same three-record batch
    (identical content, tied timestamps, so the stable pre-sort keeps either
    order) yield structurally different forests — in the first, record 3 forms
    its own thread; in the second it is grouped with record 2 — so thread
    membership itself differs, not merely diagnostic ordering. -/
theorem claim9_counterexample :
    ((hybridPipeline [hybA, hybB, hybC]).map
        (fun ths => ths.map (fun p => (p.1, p.2.emails.map (fun e => e.id))))) =
      some [("m1", ["1", "2"]), ("3", ["3"])] ∧
      ((hybridPipeline [hybB, hybA, hybC]).map
          (fun ths => ths.map (fun p => (p.1, p.2.emails.map (fun e => e.id))))) =
        some [("m2", ["2", "3"]), ("m1", ["1"])] ∧
      [hybB, hybA, hybC].Perm [hybA, hybB, hybC] ∧
      ¬ ([["1", "2"], ["3"]] : List (List String)).Perm [["2", "3"], ["1"]] := by
  refine ⟨by decide, by decide, by decide, by decide⟩

end EmailThreads
